import Mathlib

/-!
Verification of the script-composition and execution-filesystem subsystem of
`plugins/module_utils/python_framework_actions.py`.

Paths are modelled as lists of characters (`FsPath`).  The ambient filesystem is
modelled as the list of paths that currently exist; creating a file with
`open(path, "xb")` either succeeds (the path is added), fails with `EEXIST`
when the path already exists, or fails with another OS error supplied by an
error oracle `err : FsPath → Option Nat`.
-/

set_option maxHeartbeats 1000000

/-- A filesystem path, as the list of its characters. -/
abbrev FsPath := List Char

/-- The decimal digit characters produced by Python's `'%d'` formatting. -/
def digitChar : Nat → Char
  | 0 => '0' | 1 => '1' | 2 => '2' | 3 => '3' | 4 => '4'
  | 5 => '5' | 6 => '6' | 7 => '7' | 8 => '8' | _ => '9'

/-- Decimal rendering of a natural number, as done by `'%d' % n`. -/
def decimal (n : Nat) : List Char :=
  if _h : n < 10 then [digitChar n]
  else decimal (n / 10) ++ [digitChar (n % 10)]
termination_by n
decreasing_by exact Nat.div_lt_self (by omega) (by omega)

/-- Numeric value of a decimal digit character. -/
def digitVal (c : Char) : Nat := c.toNat - 48

/-- Value of a decimal digit string (left fold, most significant digit first). -/
def decVal (l : List Char) : Nat := l.foldl (fun a c => 10 * a + digitVal c) 0

theorem digitVal_digitChar {d : Nat} (h : d < 10) : digitVal (digitChar d) = d := by
  interval_cases d <;> decide

theorem decVal_append_digit (l : List Char) (c : Char) :
    decVal (l ++ [c]) = 10 * decVal l + digitVal c := by
  simp [decVal, List.foldl_append]

theorem decVal_decimal (n : Nat) : decVal (decimal n) = n := by
  induction n using decimal.induct with
  | case1 n h =>
      simp [decimal, h, decVal, digitVal_digitChar h]
  | case2 n h ih =>
      rw [decimal]
      simp only [h, dite_false]
      rw [decVal_append_digit, ih, digitVal_digitChar (Nat.mod_lt _ (by omega))]
      omega

theorem decimal_inj {a b : Nat} (h : decimal a = decimal b) : a = b := by
  have := congrArg decVal h
  rwa [decVal_decimal, decVal_decimal] at this

theorem decimal_ne_nil (n : Nat) : decimal n ≠ [] := by
  rw [decimal]
  split <;> simp

/-- `posixpath.splitext`: split `p` into root and extension.  The extension is
the part of the last path component from its last dot on, except that a last
component consisting only of leading dots before that dot has no extension. -/
def splitext (p : FsPath) : FsPath × FsPath :=
  let pre := p.reverse.takeWhile (fun c => c ≠ '/')
  let d := (p.reverse.dropWhile (fun c => c ≠ '/')).reverse
  let r := pre
  let extR := r.takeWhile (fun c => c ≠ '.')
  match r.dropWhile (fun c => c ≠ '.') with
  | [] => (p, [])
  | _ :: t => if t.all (fun c => c = '.') then (p, []) else (d ++ t.reverse, '.' :: extR.reverse)

theorem dropWhile_eq_cons_head {q : Char → Bool} :
    ∀ (l : List Char) (a : Char) (as : List Char), l.dropWhile q = a :: as → q a = false := by
  intro l
  induction l with
  | nil => intro a as h; simp [List.dropWhile] at h
  | cons c cs ih =>
      intro a as h
      rw [List.dropWhile_cons] at h
      by_cases hq : q c
      · simp [hq] at h; exact ih a as h
      · simp [hq] at h; obtain ⟨h1, _⟩ := h; simp [← h1]; simpa using hq

/-- The root and the extension concatenate back to the original path. -/
theorem splitext_append (p : FsPath) : (splitext p).1 ++ (splitext p).2 = p := by
  unfold splitext
  simp only []
  set pre := p.reverse.takeWhile (fun c => c ≠ '/') with hpre
  set d := (p.reverse.dropWhile (fun c => c ≠ '/')).reverse with hd
  have hp : d ++ pre.reverse = p := by
    rw [hd, hpre]
    rw [← List.reverse_append]
    rw [List.takeWhile_append_dropWhile]
    exact p.reverse_reverse
  cases hsplit : pre.dropWhile (fun c => c ≠ '.') with
  | nil => simp
  | cons a t =>
      have ha : a = '.' := by
        have := dropWhile_eq_cons_head pre a t hsplit
        simpa using this
      by_cases hall : t.all (fun c => c = '.')
      · simp [hall]
      · have hr : pre = pre.takeWhile (fun c => c ≠ '.') ++ (a :: t) := by
          rw [← hsplit, List.takeWhile_append_dropWhile]
        have hrev : pre.reverse = t.reverse ++ '.' :: (pre.takeWhile (fun c => c ≠ '.')).reverse := by
          conv_lhs => rw [hr]
          rw [ha]
          simp [List.reverse_append]
        simp only [ne_eq, decide_not] at hrev
        simp [hall, List.append_assoc, ← hrev, hp]

/-- Two-argument `os.path.join` for POSIX paths. -/
def pjoin (a b : FsPath) : FsPath :=
  if b.head? = some '/' then b
  else if a = [] ∨ a.getLast? = some '/' then a ++ b
  else a ++ '/' :: b

/-- `TmpFilesystemBase.filenames_like`: the `n`-th candidate name derived from
`stem` — the stem itself, then `root_1ext`, `root_2ext`, … where
`(root, ext) = splitext stem`. -/
def filenames_like (stem : FsPath) (n : Nat) : FsPath :=
  if n = 0 then stem
  else (splitext stem).1 ++ '_' :: (decimal n ++ (splitext stem).2)

theorem app_cancel_left : ∀ (l s t : List Char), l ++ s = l ++ t → s = t := by
  intro l
  induction l with
  | nil => intro s t h; simpa using h
  | cons c cs ih => intro s t h; simp at h; exact ih s t (by simpa using h)

theorem app_cancel_right (s t l : List Char) (h : s ++ l = t ++ l) : s = t := by
  have hrev := congrArg List.reverse h
  simp only [List.reverse_append] at hrev
  have := app_cancel_left l.reverse s.reverse t.reverse hrev
  have := congrArg List.reverse this
  simpa using this

theorem filenames_like_inj (stem : FsPath) : Function.Injective (filenames_like stem) := by
  intro a b h
  unfold filenames_like at h
  match a, b with
  | 0, 0 => rfl
  | 0, b + 1 =>
    exfalso
    simp at h
    conv at h => lhs; rw [← splitext_append stem]
    have := app_cancel_left (splitext stem).1 _ _ h
    have hlen := congrArg List.length this
    simp [List.length_append] at hlen
    omega
  | a + 1, 0 =>
    exfalso
    simp at h
    conv at h => rhs; rw [← splitext_append stem]
    have := app_cancel_left (splitext stem).1 _ _ h
    have hlen := congrArg List.length this
    simp [List.length_append] at hlen
    omega
  | a + 1, b + 1 =>
    simp only [Nat.succ_ne_zero, if_false] at h
    have h1 := app_cancel_left (splitext stem).1 _ _ h
    simp only [List.cons.injEq, true_and] at h1
    have h2 := app_cancel_right _ _ _ h1
    rw [decimal_inj h2]

/-- `MountedVolumeTmpFilesystem.__init__` normalizes the mount point with
`while mountpoint.endswith("/"): mountpoint = mountpoint[:-1]`, i.e. it strips
every trailing slash. -/
def normalize_mountpoint (m : FsPath) : FsPath :=
  ((m.reverse.dropWhile (fun c => c = '/'))).reverse

/-- The value produced by calling a Python method: either a normal return or a
raised exception. -/
inductive PyCallResult (α : Type) where
  | returns (a : α)
  | raises (msg : String)
  deriving DecidableEq

/-- What `translate_path_inside` hands back to its caller: a translated path,
or the builtin `ValueError` *class object* (the code says `return ValueError`,
not `raise ValueError(...)`). -/
inductive TranslateValue where
  | path (p : FsPath)
  | valueErrorClass
  deriving DecidableEq

/-- `MountedVolumeTmpFilesystem.translate_path_inside`: if `path_outside` does
not start with the mount point the code executes `return ValueError` — a normal
return of the exception class — otherwise it returns the path with the
mount-point prefix stripped (`path_outside[len(self.mountpoint):]`). -/
def translate_path_inside (mountpoint p : FsPath) : PyCallResult TranslateValue :=
  if List.isPrefixOf mountpoint p then .returns (.path (p.drop mountpoint.length))
  else .returns .valueErrorClass

theorem isPrefixOf_self_append (l u : List Char) : List.isPrefixOf l (l ++ u) = true := by
  induction l with
  | nil => simp [List.isPrefixOf]
  | cons c cs ih => simp [List.isPrefixOf, ih]

theorem normalize_mountpoint_getLast? (m : FsPath) :
    (normalize_mountpoint m).getLast? ≠ some '/' := by
  unfold normalize_mountpoint
  cases hdrop : m.reverse.dropWhile (fun c => c = '/') with
  | nil => simp
  | cons a t =>
      have ha := dropWhile_eq_cons_head m.reverse a t hdrop
      rw [List.getLast?_reverse]
      simp only [List.head?_cons]
      intro hcontra
      rw [Option.some.injEq] at hcontra
      rw [hcontra] at ha
      simp at ha

theorem takeWhile_append_length_le {q : Char → Bool} (c : Char) (hq : q c = false) :
    ∀ xs ys : List Char, (List.takeWhile q (xs ++ c :: ys)).length ≤ xs.length := by
  intro xs ys
  induction xs with
  | nil => simp [List.takeWhile, hq]
  | cons x xt ih =>
      rw [List.cons_append, List.takeWhile_cons]
      cases hx : q x with
      | false => simp
      | true => simpa using ih

theorem append_eq_append_of_length_le {a b c e : List Char}
    (h : a ++ b = c ++ e) (hl : a.length ≤ c.length) : ∃ u, c = a ++ u := by
  refine ⟨c.drop a.length, ?_⟩
  have htake : a = (a ++ b).take a.length := by simp
  rw [h] at htake
  rw [List.take_append_of_le_length hl] at htake
  conv_lhs => rw [← List.take_append_drop a.length c]
  rw [← htake]

/-- The root computed by `splitext` keeps any `dir/`-shaped prefix of the
argument: if `p = m ++ "/" ++ r` then the root still starts with `m ++ "/"`. -/
theorem splitext_root_form {p m r : FsPath} (hp : p = m ++ '/' :: r) :
    ∃ s, (splitext p).1 = m ++ '/' :: s := by
  unfold splitext
  simp only []
  set pre := p.reverse.takeWhile (fun c => c ≠ '/') with hpre
  set d := (p.reverse.dropWhile (fun c => c ≠ '/')).reverse with hd
  have hsplit_p : d ++ pre.reverse = p := by
    rw [hd, hpre, ← List.reverse_append, List.takeWhile_append_dropWhile]
    exact p.reverse_reverse
  cases hcase : pre.dropWhile (fun c => c ≠ '.') with
  | nil => exact ⟨r, by simpa using hp⟩
  | cons a t =>
      by_cases hall : t.all (fun c => c = '.')
      · exact ⟨r, by simp [hall, hp]⟩
      · simp only [hall, Bool.false_eq_true, if_false]
        have hrev : p.reverse = r.reverse ++ '/' :: m.reverse := by
          rw [hp]
          simp [List.reverse_append]
        have hpre_len : pre.length ≤ r.length := by
          rw [hpre, hrev]
          have := takeWhile_append_length_le (q := fun c => decide (c ≠ '/')) '/'
            (by simp) r.reverse m.reverse
          simpa using this
        have hd_len : m.length + 1 ≤ d.length := by
          have h1 := congrArg List.length hsplit_p
          have h2 := congrArg List.length hp
          simp at h1 h2
          omega
        obtain ⟨u, hu⟩ := append_eq_append_of_length_le
          (a := m ++ ['/']) (b := r) (c := d) (e := pre.reverse)
          (by rw [hsplit_p, hp]; simp [List.append_assoc]) (by simpa using hd_len)
        exact ⟨u ++ t.reverse, by rw [hu]; simp [List.append_assoc]⟩

/-- Every candidate produced by `filenames_like` keeps a `m ++ "/"` prefix of
its stem. -/
theorem filenames_like_form {stem m r : FsPath} (hstem : stem = m ++ '/' :: r) (n : Nat) :
    ∃ s, filenames_like stem n = m ++ '/' :: s := by
  unfold filenames_like
  by_cases hn : n = 0
  · exact ⟨r, by simp [hn, hstem]⟩
  · simp only [hn, if_false]
    obtain ⟨s, hs⟩ := splitext_root_form hstem
    exact ⟨s ++ '_' :: (decimal n ++ (splitext stem).2), by rw [hs]; simp [List.append_assoc]⟩

/-- `os.path.join` keeps a `m ++ "/"` prefix of its first argument whenever the
second argument is not an absolute path. -/
theorem pjoin_form {a m r : FsPath} (b : FsPath) (ha : a = m ++ '/' :: r)
    (hb : b.head? ≠ some '/') : ∃ s, pjoin a b = m ++ '/' :: s := by
  unfold pjoin
  simp only [hb, if_false]
  by_cases hcase : a = [] ∨ a.getLast? = some '/'
  · rw [if_pos hcase, ha]
    exact ⟨r ++ b, by simp [List.append_assoc]⟩
  · rw [if_neg hcase, ha]
    exact ⟨r ++ '/' :: b, by simp [List.append_assoc]⟩

/-- `os.path.join m b = m ++ "/" ++ b` for a nonempty `m` without a trailing
slash and a relative `b`. -/
theorem pjoin_eq {m b : FsPath} (hm : m ≠ []) (hlast : m.getLast? ≠ some '/')
    (hb : b.head? ≠ some '/') : pjoin m b = m ++ '/' :: b := by
  unfold pjoin
  simp [hb, hm, hlast]

/-- The fixed name stem used by `TmpdirFilesystem` for its private directory. -/
def ansible_tmp : FsPath := ".ansible_tmp".data

/-- The set of paths the inner `TmpdirFilesystem` of a
`MountedVolumeTmpFilesystem` can hand back: the lazily created private
directory is one of the candidates `filenames_like (pjoin (pjoin mp rel)
".ansible_tmp")`, and every created file is one of the candidates
`filenames_like (pjoin tmpdir stem)` for a file-name stem (`make_file` is
called with a file name, and `copy_file` passes `os.path.basename`, so the
stem is never absolute). -/
def InnerReturnedFsPath (mp rel p : FsPath) : Prop :=
  ∃ t stem : FsPath, ∃ k n : Nat,
    stem.head? ≠ some '/' ∧
    t = filenames_like (pjoin (pjoin mp rel) ansible_tmp) k ∧
    p = filenames_like (pjoin t stem) n

/-- C1: the claim says translating a path that does not start with the mount
point must *fail* (raise a translation/programmer error).  The code instead
executes `return ValueError`, a normal return of the builtin exception class:
`translate_path_inside` never raises, and on the failing input
`mountpoint = "/mnt"`, `path_outside = "/elsewhere/data.txt"` it returns the
`ValueError` class object as an ordinary value. -/
theorem translate_outside_mountpoint_returns_class :
    (∀ mountpoint p : FsPath, ∃ v, translate_path_inside mountpoint p = PyCallResult.returns v) ∧
    translate_path_inside "/mnt".data "/elsewhere/data.txt".data =
      PyCallResult.returns TranslateValue.valueErrorClass := by
  constructor
  · intro mountpoint p
    unfold translate_path_inside
    split
    · exact ⟨_, rfl⟩
    · exact ⟨_, rfl⟩
  · decide

/-- C8: for every path `p` handed back by the inner `TmpdirFilesystem` of a
`MountedVolumeTmpFilesystem` (built on the normalized mount point and a
relative `tmpdir_rel_path`), `translate_path_inside` strips exactly the
mount-point prefix, and re-prepending the mount point reconstructs `p`. -/
theorem mounted_round_trip (m rel p : FsPath)
    (hrel : rel.head? ≠ some '/')
    (hp : InnerReturnedFsPath (normalize_mountpoint m) rel p) :
    translate_path_inside (normalize_mountpoint m) p =
      PyCallResult.returns (TranslateValue.path (p.drop (normalize_mountpoint m).length)) ∧
    normalize_mountpoint m ++ p.drop (normalize_mountpoint m).length = p := by
  set mp := normalize_mountpoint m with hmp
  have hpref : ∃ u, p = mp ++ u := by
    obtain ⟨t, stem, k, n, hstem, ht, hpn⟩ := hp
    by_cases hmpnil : mp = []
    · exact ⟨p, by simp [hmpnil]⟩
    · have hlast : mp.getLast? ≠ some '/' := by
        rw [hmp]; exact normalize_mountpoint_getLast? m
      have h1 : pjoin mp rel = mp ++ '/' :: rel := pjoin_eq hmpnil hlast hrel
      obtain ⟨s2, hs2⟩ := pjoin_form ansible_tmp h1 (by decide)
      obtain ⟨s3, hs3⟩ : ∃ s3, t = mp ++ '/' :: s3 := by
        rw [ht]; exact filenames_like_form hs2 k
      obtain ⟨s4, hs4⟩ := pjoin_form stem hs3 hstem
      obtain ⟨s5, hs5⟩ : ∃ s5, p = mp ++ '/' :: s5 := by
        rw [hpn]; exact filenames_like_form hs4 n
      exact ⟨'/' :: s5, hs5⟩
  obtain ⟨u, hu⟩ := hpref
  constructor
  · unfold translate_path_inside
    rw [hu, if_pos (isPrefixOf_self_append mp u)]
  · rw [hu, List.drop_left]

/-- C8 witness: the round trip at mount point `/mnt/` (normalized to `/mnt`),
`tmpdir_rel_path = "work"` and the inner path
`/mnt/work/.ansible_tmp/script.py`. -/
theorem mounted_round_trip_witness :
    ("work".data : FsPath).head? ≠ some '/' ∧
    InnerReturnedFsPath (normalize_mountpoint "/mnt/".data) "work".data
      "/mnt/work/.ansible_tmp/script.py".data ∧
    translate_path_inside (normalize_mountpoint "/mnt/".data)
        "/mnt/work/.ansible_tmp/script.py".data =
      PyCallResult.returns (TranslateValue.path
        ("/mnt/work/.ansible_tmp/script.py".data.drop
          (normalize_mountpoint "/mnt/".data).length)) ∧
    normalize_mountpoint "/mnt/".data ++
        "/mnt/work/.ansible_tmp/script.py".data.drop
          (normalize_mountpoint "/mnt/".data).length =
      "/mnt/work/.ansible_tmp/script.py".data := by
  have hrel : ("work".data : FsPath).head? ≠ some '/' := by decide
  have hinner : InnerReturnedFsPath (normalize_mountpoint "/mnt/".data) "work".data
      "/mnt/work/.ansible_tmp/script.py".data :=
    ⟨"/mnt/work/.ansible_tmp".data, "script.py".data, 0, 0, by decide, by decide, by decide⟩
  have h := mounted_round_trip "/mnt/".data "work".data
    "/mnt/work/.ansible_tmp/script.py".data hrel hinner
  exact ⟨hrel, hinner, h.1, h.2⟩

/-- State of a `BasicTmpFilesystem` instance together with the ambient
filesystem: `tmpdir` is the constructor argument (defaulting to
`os.path.curdir`), `existing` lists the paths that currently exist on disk,
and `files_to_cleanup` is the list kept by `note_file_created`. -/
structure BasicFs where
  tmpdir : FsPath
  existing : List FsPath
  files_to_cleanup : List FsPath
  deriving DecidableEq

/-- Result of `BasicTmpFilesystem.make_file`: a created path with the new
state, a fatal OS error (anything other than `EEXIST` escapes the
`let_EEXIST_slide` context manager), or `spin` when the loop fuel runs out
(the Python loop would still be probing; provably unreachable). -/
inductive MakeResult where
  | ok (path : FsPath) (st : BasicFs)
  | fatal (e : Nat)
  | spin
  deriving DecidableEq

/-- The `for path in self.filenames_like(stem)` loop of
`BasicTmpFilesystem.make_file`: `open(path, "xb")` raises `EEXIST` when the
candidate exists (swallowed, so the loop proceeds to the next candidate),
raises a fatal error when the oracle `err` says so, and otherwise creates the
file, notes it for cleanup and returns its path. -/
def make_file_loop (err : FsPath → Option Nat) (st : BasicFs) (cand : Nat → FsPath) :
    Nat → Nat → MakeResult
  | _, 0 => .spin
  | i, fuel + 1 =>
    if cand i ∈ st.existing then make_file_loop err st cand (i + 1) fuel
    else
      match err (cand i) with
      | some e => .fatal e
      | none => .ok (cand i) { st with existing := cand i :: st.existing,
                                       files_to_cleanup := st.files_to_cleanup ++ [cand i] }

/-- `BasicTmpFilesystem.make_file stem bytes`: probe
`filenames_like(os.path.join(self.tmpdir, stem))` for the first free name.
The written byte content does not influence naming or cleanup and is not
modelled.  Fuel `existing.length + 1` is always enough (see
`make_file_loop_first_free`). -/
def basic_make_file (err : FsPath → Option Nat) (st : BasicFs) (stem : FsPath) : MakeResult :=
  make_file_loop err st (filenames_like (pjoin st.tmpdir stem)) 0 (st.existing.length + 1)

/-- `BasicTmpFilesystem.copy_file`: do nothing, just return `from_path`;
nothing is registered for cleanup. -/
def basic_copy_file (st : BasicFs) (from_path : FsPath) : FsPath × BasicFs :=
  (from_path, st)

/-- `os.unlink`: removes the path, or raises `ENOENT` (errno 2) when the path
does not exist. -/
def unlink (p : FsPath) (w : List FsPath) : Except Nat (List FsPath) :=
  if p ∈ w then .ok (w.filter (fun q => q ≠ p)) else .error 2

/-- The `for path in self.files_to_cleanup` loop of
`TmpFilesystemBase.cleanup`, calling `cleanup_one_file` (= `os.unlink`) on
each noted file. -/
def cleanup_files : List FsPath → List FsPath → Except Nat (List FsPath)
  | [], w => .ok w
  | p :: ps, w =>
    match unlink p w with
    | .ok w' => cleanup_files ps w'
    | .error e => .error e

/-- `TmpFilesystemBase.cleanup` as inherited by `BasicTmpFilesystem`.  Note
that `files_to_cleanup` is *not* cleared. -/
def basic_cleanup (st : BasicFs) : Except Nat BasicFs :=
  match cleanup_files st.files_to_cleanup st.existing with
  | .ok w => .ok { st with existing := w }
  | .error e => .error e

/-- `n` successive `make_file` calls against the same instance, collecting the
returned paths. -/
def repeat_make (err : FsPath → Option Nat) (stem : FsPath) :
    Nat → BasicFs → Option (List FsPath × BasicFs)
  | 0, st => some ([], st)
  | n + 1, st =>
    match basic_make_file err st stem with
    | .ok p st' =>
      match repeat_make err stem n st' with
      | some (ps, st'') => some (p :: ps, st'')
      | none => none
    | _ => none

theorem mem_length_le (cand : Nat → FsPath) (hinj : Function.Injective cand)
    (ex : List FsPath) (k : Nat) (h : ∀ j, j < k → cand j ∈ ex) : k ≤ ex.length := by
  have hnodup : ((List.range k).map cand).Nodup :=
    (List.nodup_range k).map hinj
  have hcard : ((List.range k).map cand).toFinset.card = k := by
    rw [List.toFinset_card_of_nodup hnodup]
    simp
  have hsub : ((List.range k).map cand).toFinset ⊆ ex.toFinset := by
    intro x hx
    simp only [List.mem_toFinset, List.mem_map, List.mem_range] at hx
    obtain ⟨j, hj, rfl⟩ := hx
    simpa using h j hj
  calc k = ((List.range k).map cand).toFinset.card := hcard.symm
    _ ≤ ex.toFinset.card := Finset.card_le_card hsub
    _ ≤ ex.length := ex.toFinset_card_le

theorem make_file_loop_first_free (err : FsPath → Option Nat) (st : BasicFs)
    (cand : Nat → FsPath) (k : Nat) :
    ∀ fuel i, i ≤ k → k - i < fuel →
    (∀ j, i ≤ j → j < k → cand j ∈ st.existing) →
    cand k ∉ st.existing →
    make_file_loop err st cand i fuel =
      (match err (cand k) with
       | some e => MakeResult.fatal e
       | none => MakeResult.ok (cand k)
           { st with existing := cand k :: st.existing,
                     files_to_cleanup := st.files_to_cleanup ++ [cand k] }) := by
  intro fuel
  induction fuel with
  | zero => intro i h1 h2 _ _; omega
  | succ f ih =>
      intro i hik hfuel hmem hfree
      rw [make_file_loop]
      by_cases hi : i = k
      · subst hi
        rw [if_neg hfree]
      · have hmem_i : cand i ∈ st.existing := hmem i le_rfl (by omega)
        rw [if_pos hmem_i]
        exact ih (i + 1) (by omega) (by omega) (fun j hj1 hj2 => hmem j (by omega) hj2) hfree

theorem basic_make_file_first_free (err : FsPath → Option Nat) (st : BasicFs)
    (stem : FsPath) (k : Nat)
    (hmem : ∀ j, j < k → filenames_like (pjoin st.tmpdir stem) j ∈ st.existing)
    (hfree : filenames_like (pjoin st.tmpdir stem) k ∉ st.existing) :
    basic_make_file err st stem =
      (match err (filenames_like (pjoin st.tmpdir stem) k) with
       | some e => MakeResult.fatal e
       | none => MakeResult.ok (filenames_like (pjoin st.tmpdir stem) k)
           { st with existing := filenames_like (pjoin st.tmpdir stem) k :: st.existing,
                     files_to_cleanup :=
                       st.files_to_cleanup ++ [filenames_like (pjoin st.tmpdir stem) k] }) := by
  have hk : k ≤ st.existing.length :=
    mem_length_le _ (filenames_like_inj _) _ k hmem
  exact make_file_loop_first_free err st _ k _ 0 (by omega) (by omega)
    (fun j _ hj2 => hmem j hj2) hfree

theorem repeat_make_range (err : FsPath → Option Nat) (t0 stem : FsPath)
    (base fc0 : List FsPath)
    (hex : ∀ i, filenames_like (pjoin t0 stem) i ∉ base)
    (herr : ∀ i, err (filenames_like (pjoin t0 stem) i) = none) :
    ∀ n k, repeat_make err stem n
      ⟨t0, ((List.range k).map (filenames_like (pjoin t0 stem))).reverse ++ base,
           fc0 ++ (List.range k).map (filenames_like (pjoin t0 stem))⟩ =
      some ((List.range' k n).map (filenames_like (pjoin t0 stem)),
        ⟨t0, ((List.range (k + n)).map (filenames_like (pjoin t0 stem))).reverse ++ base,
             fc0 ++ (List.range (k + n)).map (filenames_like (pjoin t0 stem))⟩) := by
  intro n
  induction n with
  | zero => intro k; simp [repeat_make]
  | succ n ih =>
      intro k
      rw [repeat_make]
      set cand := filenames_like (pjoin t0 stem) with hcand
      have hmem : ∀ j, j < k → cand j ∈ (((List.range k).map cand).reverse ++ base) := by
        intro j hj
        simp only [List.mem_append, List.mem_reverse, List.mem_map, List.mem_range]
        exact Or.inl ⟨j, hj, rfl⟩
      have hfree : cand k ∉ (((List.range k).map cand).reverse ++ base) := by
        simp only [List.mem_append, List.mem_reverse, List.mem_map, List.mem_range]
        rintro (⟨j, hj, hjeq⟩ | hbase)
        · have := filenames_like_inj (pjoin t0 stem) hjeq
          omega
        · exact hex k hbase
      have hbm := basic_make_file_first_free err
        ⟨t0, ((List.range k).map cand).reverse ++ base, fc0 ++ (List.range k).map cand⟩
        stem k hmem hfree
      rw [← hcand] at hbm
      rw [herr k] at hbm
      rw [hbm]
      have hstate : cand k :: (((List.range k).map cand).reverse ++ base) =
          ((List.range (k + 1)).map cand).reverse ++ base := by
        rw [List.range_succ]
        simp
      have hfc : (fc0 ++ (List.range k).map cand) ++ [cand k] =
          fc0 ++ (List.range (k + 1)).map cand := by
        rw [List.range_succ]
        simp [List.append_assoc]
      simp only []
      rw [hstate, hfc, ih (k + 1)]
      have harith : k + 1 + n = k + (n + 1) := by omega
      rw [harith]
      have hrange : List.range' k (n + 1) = k :: List.range' (k + 1) n := List.range'_succ k n 1
      rw [hrange]
      simp

/-- C3: `make_file` against the `BasicTmpFilesystem` backend.
First conjunct: when the candidates before index `k` are taken and candidate
`k` is free and creation at `k` does not fail, `make_file` returns exactly
candidate `k` (atomically claimed via exclusive creation) and registers it for
cleanup — i.e. an `EEXIST` on a candidate only causes a retry with the next
candidate.  Second conjunct: a non-`EEXIST` failure at the first free
candidate is fatal and is not retried.  Third conjunct: starting from a state
in which no candidate name is taken, `n` repeated `make_file(stem, bytes)`
calls return exactly the candidate sequence `stem`, `stem_1`, `stem_2`, … in
order, and those paths are pairwise distinct. -/
theorem make_file_candidate_sequence :
    (∀ (err : FsPath → Option Nat) (st : BasicFs) (stem : FsPath) (k : Nat),
      (∀ j, j < k → filenames_like (pjoin st.tmpdir stem) j ∈ st.existing) →
      filenames_like (pjoin st.tmpdir stem) k ∉ st.existing →
      err (filenames_like (pjoin st.tmpdir stem) k) = none →
      basic_make_file err st stem =
        MakeResult.ok (filenames_like (pjoin st.tmpdir stem) k)
          { st with existing := filenames_like (pjoin st.tmpdir stem) k :: st.existing,
                    files_to_cleanup :=
                      st.files_to_cleanup ++ [filenames_like (pjoin st.tmpdir stem) k] }) ∧
    (∀ (err : FsPath → Option Nat) (st : BasicFs) (stem : FsPath) (k : Nat) (e : Nat),
      (∀ j, j < k → filenames_like (pjoin st.tmpdir stem) j ∈ st.existing) →
      filenames_like (pjoin st.tmpdir stem) k ∉ st.existing →
      err (filenames_like (pjoin st.tmpdir stem) k) = some e →
      basic_make_file err st stem = MakeResult.fatal e) ∧
    (∀ (err : FsPath → Option Nat) (t0 stem : FsPath) (ex0 fc0 : List FsPath) (n : Nat),
      (∀ i, filenames_like (pjoin t0 stem) i ∉ ex0) →
      (∀ i, err (filenames_like (pjoin t0 stem) i) = none) →
      ∃ stN, repeat_make err stem n ⟨t0, ex0, fc0⟩ =
          some ((List.range n).map (filenames_like (pjoin t0 stem)), stN) ∧
        ((List.range n).map (filenames_like (pjoin t0 stem))).Nodup) := by
  refine ⟨fun err st stem k hmem hfree herr => by
      have h := basic_make_file_first_free err st stem k hmem hfree
      rw [herr] at h
      exact h,
    fun err st stem k e hmem hfree herr => by
      have h := basic_make_file_first_free err st stem k hmem hfree
      rw [herr] at h
      exact h,
    fun err t0 stem ex0 fc0 n hex herr => ?_⟩
  have h := repeat_make_range err t0 stem ex0 fc0 hex herr n 0
  simp only [List.range_zero, List.map_nil, List.reverse_nil, List.nil_append,
    List.append_nil, Nat.zero_add] at h
  rw [← List.range_eq_range'] at h
  exact ⟨_, h, (List.nodup_range n).map (filenames_like_inj _)⟩

/-- C3 witness: one `make_file("report.txt", …)` call on a fresh instance
rooted at `/tmp` returns the first candidate and registers it. -/
theorem make_file_candidate_sequence_witness :
    (∀ i, filenames_like (pjoin "/tmp".data "report.txt".data) i ∉ ([] : List FsPath)) ∧
    (∀ i, (fun (_ : FsPath) => (none : Option Nat))
        (filenames_like (pjoin "/tmp".data "report.txt".data) i) = none) ∧
    ∃ stN, repeat_make (fun _ => none) "report.txt".data 1 ⟨"/tmp".data, [], []⟩ =
        some ((List.range 1).map (filenames_like (pjoin "/tmp".data "report.txt".data)), stN) ∧
      ((List.range 1).map (filenames_like (pjoin "/tmp".data "report.txt".data))).Nodup := by
  have h1 : ∀ i, filenames_like (pjoin "/tmp".data "report.txt".data) i ∉ ([] : List FsPath) := by
    intro i
    simp
  exact ⟨h1, fun i => rfl,
    make_file_candidate_sequence.2.2 (fun _ => none) "/tmp".data "report.txt".data [] [] 1
      h1 (fun i => rfl)⟩

theorem cleanup_files_mem : ∀ (ps w w' : List FsPath), cleanup_files ps w = .ok w' →
    ∀ q, q ∈ w' ↔ (q ∈ w ∧ q ∉ ps) := by
  intro ps
  induction ps with
  | nil =>
      intro w w' h q
      rw [cleanup_files] at h
      injection h with h1
      subst h1
      simp
  | cons p pt ih =>
      intro w w' h q
      rw [cleanup_files] at h
      unfold unlink at h
      by_cases hp : p ∈ w
      · rw [if_pos hp] at h
        simp only [] at h
        rw [ih _ _ h q]
        constructor
        · rintro ⟨hqf, hqps⟩
          rw [List.mem_filter] at hqf
          refine ⟨hqf.1, ?_⟩
          simp only [List.mem_cons, not_or]
          exact ⟨by simpa using hqf.2, hqps⟩
        · rintro ⟨hqw, hqps⟩
          simp only [List.mem_cons, not_or] at hqps
          exact ⟨List.mem_filter.2 ⟨hqw, by simpa using hqps.1⟩, hqps.2⟩
      · rw [if_neg hp] at h
        simp at h

theorem make_file_loop_registers (err : FsPath → Option Nat) (st : BasicFs)
    (cand : Nat → FsPath) :
    ∀ fuel i p st', make_file_loop err st cand i fuel = .ok p st' →
      st'.tmpdir = st.tmpdir ∧ st'.existing = p :: st.existing ∧
      st'.files_to_cleanup = st.files_to_cleanup ++ [p] := by
  intro fuel
  induction fuel with
  | zero => intro i p st' h; rw [make_file_loop] at h; simp at h
  | succ f ih =>
      intro i p st' h
      rw [make_file_loop] at h
      by_cases hmem : cand i ∈ st.existing
      · rw [if_pos hmem] at h
        exact ih (i + 1) p st' h
      · rw [if_neg hmem] at h
        cases herr : err (cand i) with
        | some e => rw [herr] at h; simp at h
        | none =>
            rw [herr] at h
            injection h with h1 h2
            subst h2
            exact ⟨rfl, by rw [h1], by rw [h1]⟩

/-- C10: `BasicTmpFilesystem.copy_file` returns its argument unchanged and
registers nothing for cleanup (first conjunct: even the whole state is
untouched); `make_file` registers exactly the path it created (second
conjunct); and a successful `cleanup` deletes exactly the registered files,
so any file not registered — in particular a `copy_file` argument never
registered by the run — is left untouched (third conjunct). -/
theorem copy_file_not_registered :
    (∀ (st : BasicFs) (p : FsPath), basic_copy_file st p = (p, st)) ∧
    (∀ (err : FsPath → Option Nat) (st : BasicFs) (stem p : FsPath) (st' : BasicFs),
      basic_make_file err st stem = MakeResult.ok p st' →
      st'.files_to_cleanup = st.files_to_cleanup ++ [p]) ∧
    (∀ (st st' : BasicFs), basic_cleanup st = .ok st' →
      ∀ q, q ∈ st'.existing ↔ (q ∈ st.existing ∧ q ∉ st.files_to_cleanup)) := by
  refine ⟨fun st p => rfl,
    fun err st stem p st' h => (make_file_loop_registers err st _ _ 0 p st' h).2.2,
    fun st st' h q => ?_⟩
  unfold basic_cleanup at h
  cases hcf : cleanup_files st.files_to_cleanup st.existing with
  | ok w =>
      rw [hcf] at h
      injection h with h1
      subst h1
      exact cleanup_files_mem _ _ _ hcf q
  | error e => rw [hcf] at h; simp at h

/-- C10 witness: with `/w/hosts` existing but only `/w/made.txt` registered,
`copy_file` leaves the state alone and cleanup deletes only the registered
file, leaving `/w/hosts` in place. -/
theorem copy_file_not_registered_witness :
    basic_copy_file ⟨"/w".data, ["/w/hosts".data, "/w/made.txt".data], ["/w/made.txt".data]⟩
        "/w/hosts".data =
      ("/w/hosts".data,
        ⟨"/w".data, ["/w/hosts".data, "/w/made.txt".data], ["/w/made.txt".data]⟩) ∧
    basic_cleanup ⟨"/w".data, ["/w/hosts".data, "/w/made.txt".data], ["/w/made.txt".data]⟩ =
      Except.ok ⟨"/w".data, ["/w/hosts".data], ["/w/made.txt".data]⟩ ∧
    ("/w/hosts".data ∈
        (⟨"/w".data, ["/w/hosts".data], ["/w/made.txt".data]⟩ : BasicFs).existing ↔
      ("/w/hosts".data ∈
          ["/w/hosts".data, "/w/made.txt".data] ∧ "/w/hosts".data ∉ ["/w/made.txt".data])) := by
  have hclean : basic_cleanup
      ⟨"/w".data, ["/w/hosts".data, "/w/made.txt".data], ["/w/made.txt".data]⟩ =
      Except.ok ⟨"/w".data, ["/w/hosts".data], ["/w/made.txt".data]⟩ := by rfl
  exact ⟨copy_file_not_registered.1 _ _, hclean,
    copy_file_not_registered.2.2 _ _ hclean "/w/hosts".data⟩

/-- State of a `TmpdirFilesystem` instance: `has_tmpdir` models the private
`__has_tmpdir` flag and `tmpdir_path` the cached value of the `tmpdir`
cached-property (meaningful once `has_tmpdir` is set; the flag is set exactly
when the property created the directory). -/
structure TmpdirFs where
  tmpdir_base : FsPath
  has_tmpdir : Bool
  tmpdir_path : FsPath
  deriving DecidableEq

/-- `shutil.rmtree`: removes the directory and everything below it, or raises
`ENOENT` (errno 2) when the directory does not exist. -/
def rmtree (t : FsPath) (w : List FsPath) : Except Nat (List FsPath) :=
  if t ∈ w then .ok (w.filter (fun q => !(List.isPrefixOf t q))) else .error 2

/-- `TmpdirFilesystem.cleanup`: `if self.__has_tmpdir: shutil.rmtree(self.tmpdir)`.
Neither the flag nor the cached path is reset. -/
def tmpdir_cleanup (w : List FsPath) (st : TmpdirFs) : Except Nat (List FsPath × TmpdirFs) :=
  if st.has_tmpdir then
    match rmtree st.tmpdir_path w with
    | .ok w' => .ok (w', st)
    | .error e => .error e
  else .ok (w, st)

/-- State of a `MountedVolumeTmpFilesystem`: a normalized mount point and the
composed inner `TmpdirFilesystem`. -/
structure MountedFs where
  mountpoint : FsPath
  tmp : TmpdirFs
  deriving DecidableEq

/-- `MountedVolumeTmpFilesystem.cleanup`: delegates to `self.tmp.cleanup()`. -/
def mounted_cleanup (w : List FsPath) (st : MountedFs) : Except Nat (List FsPath × MountedFs) :=
  match tmpdir_cleanup w st.tmp with
  | .ok (w', t') => .ok (w', { st with tmp := t' })
  | .error e => .error e

theorem isPrefixOf_refl (t : FsPath) : List.isPrefixOf t t = true := by
  have := isPrefixOf_self_append t []
  rwa [List.append_nil] at this

theorem basic_cleanup_nil (st : BasicFs) (h : st.files_to_cleanup = []) :
    basic_cleanup st = .ok st := by
  obtain ⟨t, ex, fc⟩ := st
  have h' : fc = [] := h
  subst h'
  rfl

theorem basic_cleanup_twice (st st' : BasicFs) (hne : st.files_to_cleanup ≠ [])
    (h : basic_cleanup st = .ok st') : basic_cleanup st' = .error 2 := by
  unfold basic_cleanup at h ⊢
  cases hcf : cleanup_files st.files_to_cleanup st.existing with
  | error e => rw [hcf] at h; simp at h
  | ok w =>
      rw [hcf] at h
      injection h with h1
      subst h1
      cases hfc : st.files_to_cleanup with
      | nil => exact absurd hfc hne
      | cons p ps =>
          have hpmem : p ∉ w := by
            intro hc
            have := (cleanup_files_mem st.files_to_cleanup st.existing w hcf p).1 hc
            rw [hfc] at this
            simp at this
          simp only [hfc]
          rw [cleanup_files]
          unfold unlink
          rw [if_neg hpmem]

theorem tmpdir_cleanup_no_dir (w : List FsPath) (st : TmpdirFs)
    (h : st.has_tmpdir = false) : tmpdir_cleanup w st = .ok (w, st) := by
  unfold tmpdir_cleanup
  rw [h]
  simp

theorem tmpdir_cleanup_state (w w' : List FsPath) (st st2 : TmpdirFs)
    (h : tmpdir_cleanup w st = .ok (w', st2)) : st2 = st := by
  unfold tmpdir_cleanup at h
  by_cases hdir : st.has_tmpdir
  · rw [if_pos hdir] at h
    cases hrm : rmtree st.tmpdir_path w with
    | ok w2 =>
        rw [hrm] at h
        injection h with h1
        exact (congrArg Prod.snd h1).symm
    | error e => rw [hrm] at h; simp at h
  · rw [if_neg hdir] at h
    injection h with h1
    exact (congrArg Prod.snd h1).symm

theorem tmpdir_cleanup_twice (w w' : List FsPath) (st : TmpdirFs)
    (hdir : st.has_tmpdir = true) (h : tmpdir_cleanup w st = .ok (w', st)) :
    tmpdir_cleanup w' st = .error 2 := by
  unfold tmpdir_cleanup at h ⊢
  rw [hdir] at h ⊢
  simp only [if_true] at h ⊢
  cases hrm : rmtree st.tmpdir_path w with
  | error e => rw [hrm] at h; simp at h
  | ok w2 =>
      rw [hrm] at h
      injection h with h1
      have hw : w2 = w' := by
        have := Prod.mk.injEq w2 st w' st ▸ h1
        exact this.1
      have hnot : st.tmpdir_path ∉ w' := by
        rw [← hw]
        unfold rmtree at hrm
        by_cases hmem : st.tmpdir_path ∈ w
        · rw [if_pos hmem] at hrm
          injection hrm with h2
          rw [← h2]
          simp [List.mem_filter, isPrefixOf_refl]
        · rw [if_neg hmem] at hrm
          simp at hrm
      unfold rmtree
      rw [if_neg hnot]

theorem mounted_cleanup_no_dir (w : List FsPath) (st : MountedFs)
    (h : st.tmp.has_tmpdir = false) : mounted_cleanup w st = .ok (w, st) := by
  unfold mounted_cleanup
  rw [tmpdir_cleanup_no_dir w st.tmp h]

theorem mounted_cleanup_twice (w w' : List FsPath) (st st2 : MountedFs)
    (hdir : st.tmp.has_tmpdir = true) (h : mounted_cleanup w st = .ok (w', st2)) :
    mounted_cleanup w' st2 = .error 2 := by
  unfold mounted_cleanup at h ⊢
  cases htc : tmpdir_cleanup w st.tmp with
  | error e => rw [htc] at h; simp at h
  | ok pair =>
      obtain ⟨w2, t'⟩ := pair
      rw [htc] at h
      injection h with h1
      have hw2 : w2 = w' := congrArg Prod.fst h1
      have hst2 : ({ st with tmp := t' } : MountedFs) = st2 := congrArg Prod.snd h1
      have ht' : t' = st.tmp := tmpdir_cleanup_state w w2 st.tmp t' htc
      subst ht'
      have hst : st2 = st := by rw [← hst2]
      rw [hst]
      rw [hw2] at htc
      have h2 := tmpdir_cleanup_twice w w' st.tmp hdir htc
      rw [h2]

/-- C2 counterexample: on a `BasicTmpFilesystem` that created `/w/f.txt`, the
first `cleanup()` succeeds (deleting the file) but — because
`files_to_cleanup` is never cleared — the second `cleanup()` calls
`os.unlink` on the already-deleted file and raises `ENOENT`, contradicting
the claim that a second `cleanup()` never raises. -/
theorem cleanup_twice_counterexample :
    basic_cleanup ⟨"/w".data, ["/w/f.txt".data], ["/w/f.txt".data]⟩ =
      Except.ok ⟨"/w".data, [], ["/w/f.txt".data]⟩ ∧
    basic_cleanup ⟨"/w".data, [], ["/w/f.txt".data]⟩ = Except.error 2 := by
  constructor
  · rfl
  · rfl

/-- C2 amended: `cleanup()` is idempotent only when no asset was ever created.
For every backend, a second `cleanup()` after a first one that deleted
something raises `ENOENT`: `BasicTmpFilesystem` keeps its
`files_to_cleanup` list (conjuncts 1–2), and `TmpdirFilesystem` /
`MountedVolumeTmpFilesystem` keep the `__has_tmpdir` flag, so the second
`rmtree` runs on the already-removed directory (conjuncts 3–6).  When nothing
was created (empty cleanup list, no private directory) `cleanup()` twice is
safe and a no-op. -/
theorem cleanup_twice_amended :
    (∀ st : BasicFs, st.files_to_cleanup = [] → basic_cleanup st = .ok st) ∧
    (∀ st st' : BasicFs, st.files_to_cleanup ≠ [] → basic_cleanup st = .ok st' →
      basic_cleanup st' = .error 2) ∧
    (∀ (w : List FsPath) (st : TmpdirFs), st.has_tmpdir = false →
      tmpdir_cleanup w st = .ok (w, st)) ∧
    (∀ (w w' : List FsPath) (st : TmpdirFs), st.has_tmpdir = true →
      tmpdir_cleanup w st = .ok (w', st) → tmpdir_cleanup w' st = .error 2) ∧
    (∀ (w : List FsPath) (st : MountedFs), st.tmp.has_tmpdir = false →
      mounted_cleanup w st = .ok (w, st)) ∧
    (∀ (w w' : List FsPath) (st st2 : MountedFs), st.tmp.has_tmpdir = true →
      mounted_cleanup w st = .ok (w', st2) → mounted_cleanup w' st2 = .error 2) :=
  ⟨basic_cleanup_nil, basic_cleanup_twice, tmpdir_cleanup_no_dir, tmpdir_cleanup_twice,
    mounted_cleanup_no_dir, mounted_cleanup_twice⟩

/-- C2 amended witness: the concrete double-cleanup runs for an empty Basic
instance (safe), a Basic instance with one created file (second raises), and
a Tmpdir instance with a created directory (second raises). -/
theorem cleanup_twice_amended_witness :
    basic_cleanup ⟨"/v".data, [], []⟩ = Except.ok ⟨"/v".data, [], []⟩ ∧
    basic_cleanup ⟨"/v".data, ["/v/g.txt".data], ["/v/g.txt".data]⟩ =
      Except.ok ⟨"/v".data, [], ["/v/g.txt".data]⟩ ∧
    basic_cleanup ⟨"/v".data, [], ["/v/g.txt".data]⟩ = Except.error 2 ∧
    tmpdir_cleanup ["/v/.ansible_tmp".data] ⟨"/v".data, true, "/v/.ansible_tmp".data⟩ =
      Except.ok ([], ⟨"/v".data, true, "/v/.ansible_tmp".data⟩) ∧
    tmpdir_cleanup [] ⟨"/v".data, true, "/v/.ansible_tmp".data⟩ = Except.error 2 := by
  have hfirst : basic_cleanup ⟨"/v".data, ["/v/g.txt".data], ["/v/g.txt".data]⟩ =
      Except.ok ⟨"/v".data, [], ["/v/g.txt".data]⟩ := by rfl
  have htfirst : tmpdir_cleanup ["/v/.ansible_tmp".data]
      ⟨"/v".data, true, "/v/.ansible_tmp".data⟩ =
      Except.ok ([], ⟨"/v".data, true, "/v/.ansible_tmp".data⟩) := by rfl
  exact ⟨cleanup_twice_amended.1 _ rfl, hfirst,
    cleanup_twice_amended.2.1 _ _ (by simp) hfirst, htfirst,
    cleanup_twice_amended.2.2.2.1 _ _ _ rfl htfirst⟩

/-- A Python exception caught by the generated `except Exception as e` block:
`message` is `str(e)` and `frames` the frame lines that
`traceback.format_exc()` prints between its header and the final exception
line. -/
structure PyExn where
  message : String
  frames : String
  deriving DecidableEq

/-- `traceback.format_exc()` inside an `except` block: always begins with the
fixed `Traceback (most recent call last):` header, hence is never empty. -/
def format_exc (e : PyExn) : String :=
  "Traceback (most recent call last):\n" ++ e.frames ++ e.message ++ "\n"

/-- The outcome dictionary the generated program serializes: the failure flag,
message and traceback of the wire contract (fragment-contributed extra keys do
not matter for the guarded failure path). -/
structure ResultDict where
  failed : Bool
  msg : String
  traceback : String
  deriving DecidableEq

/-- `json.dumps(result)` for the three modelled keys. -/
def json_dumps (r : ResultDict) : String :=
  "\x7b\"failed\": " ++ (if r.failed then "true" else "false") ++
    ", \"msg\": \"" ++ r.msg ++ "\", \"traceback\": \"" ++ r.traceback ++ "\"\x7d"

/-- The guarded block of the generated program
(`try: result = … except Exception as e: tb = traceback.format_exc();
result = dict(failed=True, msg=str(e), traceback=tb)`): the evaluation of the
interpolated result expression is abstracted as an `Except` value — either the
outcome it evaluates to or the exception it raises. -/
def guarded_result (ev : Except PyExn ResultDict) : ResultDict :=
  match ev with
  | .ok r => r
  | .error e => { failed := true, msg := e.message, traceback := format_exc e }

/-- Running the generated program to completion: the guarded block computes
`result`, `print(json.dumps(result))` writes the document (plus newline) as
the standard output, and the interpreter exits with code 0. -/
def composed_program_run (ev : Except PyExn ResultDict) : String × Nat :=
  (json_dumps (guarded_result ev) ++ "\n", 0)

theorem format_exc_ne_empty (e : PyExn) : format_exc e ≠ "" := by
  unfold format_exc
  intro hcontra
  have hlen := congrArg String.length hcontra
  rw [String.length_append, String.length_append, String.length_append] at hlen
  have h35 : ("Traceback (most recent call last):\n" : String).length = 35 := rfl
  have h0 : ("" : String).length = 0 := rfl
  omega

/-- C4: an exception raised while evaluating the fragment's result expression
is recovered by the generated `except Exception` clause and converted into an
outcome with `failed = True`, `msg = str(e)` and a non-empty traceback; the
document is still printed to standard output and the generated program exits
with code 0. -/
theorem fragment_error_recovered_outcome (e : PyExn) :
    (guarded_result (.error e)).failed = true ∧
    (guarded_result (.error e)).msg = e.message ∧
    (guarded_result (.error e)).traceback ≠ "" ∧
    composed_program_run (.error e) =
      (json_dumps (guarded_result (.error e)) ++ "\n", 0) := by
  exact ⟨rfl, rfl, format_exc_ne_empty e, rfl⟩

/-- The four pieces a `ParserBase` subclass exposes to the runner:
`python_fragment_imports`, `python_fragment_declarations`,
`python_fragment_initialize` (modelled as `initialization`) and
`python_expression_run_and_return_ansible_result` (modelled as
`run_expression`, a function of the check-mode flag). -/
structure ParsedScript where
  imports : String
  declarations : String
  initialization : String
  run_expression : Bool → String

/-- `ForkedRunnerBase.python_fragment_set_ansiballz_sys_path`: starts from
`"import sys\n"` and appends one `sys.path.insert(0, '''…''')` line per
copied payload path, in order. -/
def python_fragment_set_ansiballz_sys_path (copied : List String) : String :=
  copied.foldl (fun fragment p =>
    fragment ++ ("sys.path.insert(0, \x27\x27\x27" ++ p ++ "\x27\x27\x27)\n")) "import sys\n"

/-- The bootstrap insert statements, one line per payload, in order. -/
def insert_lines : List String → String
  | [] => ""
  | p :: ps => "sys.path.insert(0, \x27\x27\x27" ++ p ++ "\x27\x27\x27)\n" ++ insert_lines ps

/-- Section (5) of the composed program: the guarded evaluation of the result
expression into `result`. -/
def guarded_section (s : ParsedScript) (check_mode : Bool) : String :=
  "try:\n  result = " ++ s.run_expression check_mode ++
    "\nexcept Exception as e:\n  tb = traceback.format_exc()\n  result = dict(failed=True, msg=str(e), traceback=tb)"

/-- Section (6) of the composed program: serialize `result` to standard
output. -/
def emit_section : String := "print(json.dumps(result))"

/-- `ForkedRunnerBase.python_script_multiline_string`: the `"""…""" % dict(…)`
template with each `%(name)s` placeholder substituted (`ansiballz`, the
fragment's imports, declarations and initialization, and the result
expression). -/
def python_script_multiline_string (copied : List String) (s : ParsedScript)
    (check_mode : Bool) : String :=
  "\nimport json\nimport traceback\n\n" ++
    python_fragment_set_ansiballz_sys_path copied ++ "\n\n" ++
    s.imports ++ "\n\n" ++
    s.declarations ++ "\n\n" ++
    s.initialization ++ "\n\n" ++
    ("try:\n  result = " ++ s.run_expression check_mode ++
      "\nexcept Exception as e:\n  tb = traceback.format_exc()\n  result = dict(failed=True, msg=str(e), traceback=tb)") ++
    "\n\n" ++ "print(json.dumps(result))" ++ "\n\n"

theorem string_append_empty (s : String) : s ++ "" = s := by
  cases s with
  | mk data =>
      have h : String.mk data ++ String.mk [] = String.mk (data ++ []) := rfl
      rw [h, List.append_nil]

theorem foldl_insert_eq (l : List String) : ∀ a : String,
    l.foldl (fun fragment p =>
      fragment ++ ("sys.path.insert(0, \x27\x27\x27" ++ p ++ "\x27\x27\x27)\n")) a
      = a ++ insert_lines l := by
  induction l with
  | nil => intro a; rw [List.foldl_nil, insert_lines, string_append_empty]
  | cons p ps ih =>
      intro a
      rw [List.foldl_cons, ih, insert_lines]
      rw [String.append_assoc]

/-- C5: for every fragment, payload list and check-mode flag, the composed
program text is exactly the fixed preamble followed by the six sections in
order — (1) the module-search-path bootstrap, (2) the fragment's imports,
(3) its declarations, (4) its initialization, (5) the guarded evaluation of
the result expression into `result`, (6) the final serialize-and-print
statement — and the bootstrap consists of `import sys` plus one insert
statement per copied payload archive, in the order given. -/
theorem composed_program_six_sections (copied : List String) (s : ParsedScript)
    (check_mode : Bool) :
    python_script_multiline_string copied s check_mode =
      "\nimport json\nimport traceback\n\n" ++
      python_fragment_set_ansiballz_sys_path copied ++ "\n\n" ++
      s.imports ++ "\n\n" ++
      s.declarations ++ "\n\n" ++
      s.initialization ++ "\n\n" ++
      guarded_section s check_mode ++ "\n\n" ++
      emit_section ++ "\n\n" ∧
    python_fragment_set_ansiballz_sys_path copied = "import sys\n" ++ insert_lines copied := by
  constructor
  · unfold python_script_multiline_string guarded_section emit_section
    simp [String.append_assoc]
  · unfold python_fragment_set_ansiballz_sys_path
    rw [foldl_insert_eq]

/-- `subprocess.run(args, check=flag)` waited to completion: yields the
child's return code; with `check=True` it would raise `CalledProcessError`
on a non-zero code.  `run_and_exit` always passes `check=False`. -/
def subprocess_run (returncode : Int) (check : Bool) : Except Int Int :=
  if check ∧ returncode ≠ 0 then .error returncode else .ok returncode

/-- How `run_and_exit` leaves the calling process: `sys.exit` with a code, or
an exception escaping (which can only come from `cleanup`). -/
inductive RunExitResult (σ : Type) where
  | exited (code : Int) (fs : σ)
  | raised (e : Nat) (fs : σ)
  deriving DecidableEq

/-- `ForkedRunnerBase.run_and_exit`, generic over the bound
`ExecutionFilesystem` backend (state `σ`, cleanup action `cleanupFn`):
launch the subprocess synchronously with `check=False`, then — unless
`self.inhibit_cleanup` is set at that moment — run `self.fs.cleanup()`, and
finally `sys.exit(p.returncode)`. -/
def run_and_exit {σ : Type} (cleanupFn : σ → Except Nat σ) (fs : σ)
    (inhibit_cleanup : Bool) (child_returncode : Int) : RunExitResult σ :=
  match subprocess_run child_returncode false with
  | .error _ => .raised 0 fs
  | .ok code =>
    if inhibit_cleanup then .exited code fs
    else
      match cleanupFn fs with
      | .ok fs' => .exited code fs'
      | .error e => .raised e fs

/-- C6: the subprocess launch never raises on a non-zero child exit code
(`check=False`); with cleanup inhibited the filesystem is untouched; with
cleanup not inhibited (and cleanup succeeding, as on a first cleanup of
still-existing assets) the bound backend's `cleanup()` runs; and in both
cases the calling process terminates with exactly the subprocess's own exit
code. -/
theorem run_and_exit_exit_code :
    (∀ returncode : Int, subprocess_run returncode false = .ok returncode) ∧
    (∀ (σ : Type) (cleanupFn : σ → Except Nat σ) (fs : σ) (returncode : Int),
      run_and_exit cleanupFn fs true returncode = .exited returncode fs) ∧
    (∀ (σ : Type) (cleanupFn : σ → Except Nat σ) (fs fs' : σ) (returncode : Int),
      cleanupFn fs = .ok fs' →
      run_and_exit cleanupFn fs false returncode = .exited returncode fs') := by
  refine ⟨fun rc => ?_, fun σ cf fs rc => ?_, fun σ cf fs fs' rc h => ?_⟩
  · unfold subprocess_run
    simp
  · unfold run_and_exit subprocess_run
    simp
  · unfold run_and_exit subprocess_run
    simp [h]

/-- C6 witness: a child exit code of 7 with cleanup of one created file, and
of 5 with cleanup inhibited. -/
theorem run_and_exit_exit_code_witness :
    basic_cleanup ⟨"/v2".data, ["/v2/s.py".data], ["/v2/s.py".data]⟩ =
      Except.ok ⟨"/v2".data, [], ["/v2/s.py".data]⟩ ∧
    run_and_exit basic_cleanup ⟨"/v2".data, ["/v2/s.py".data], ["/v2/s.py".data]⟩ false 7 =
      RunExitResult.exited 7 ⟨"/v2".data, [], ["/v2/s.py".data]⟩ ∧
    run_and_exit basic_cleanup ⟨"/v2".data, ["/v2/s.py".data], ["/v2/s.py".data]⟩ true 5 =
      RunExitResult.exited 5 ⟨"/v2".data, ["/v2/s.py".data], ["/v2/s.py".data]⟩ := by
  have hclean : basic_cleanup ⟨"/v2".data, ["/v2/s.py".data], ["/v2/s.py".data]⟩ =
      Except.ok ⟨"/v2".data, [], ["/v2/s.py".data]⟩ := by rfl
  exact ⟨hclean,
    run_and_exit_exit_code.2.2 BasicFs basic_cleanup _ _ 7 hclean,
    run_and_exit_exit_code.2.1 BasicFs basic_cleanup _ 5⟩

/-- Python's substring test `needle in hay`: some suffix of `hay` begins with
`needle`. -/
def str_contains (needle : List Char) : List Char → Bool
  | [] => List.isPrefixOf needle []
  | c :: t => List.isPrefixOf needle (c :: t) || str_contains needle t

/-- A base-class expression in a `class` statement's bases list: a plain name
(`ast.Name`, which has an `.id` attribute) or a dotted attribute expression
(`ast.Attribute`, which has none — accessing `superclass.id` on it raises
`AttributeError`). -/
inductive BaseExpr where
  | name (id : String)
  | dotted (value : String) (attr : String)
  deriving DecidableEq

/-- A node of the fragment's syntax tree, in `ast.walk` order: a class
definition with its bases, or any other kind of node. -/
inductive PyNode where
  | classDef (name : String) (bases : List BaseExpr)
  | other
  deriving DecidableEq

/-- The exceptions that can escape `PostconditionParser.__init__` while
inspecting a parsed fragment. -/
inductive PyError where
  | valueError (msg : String)
  | attributeError (msg : String)
  deriving DecidableEq

/-- The inner `for superclass in node.bases` loop of `class_declaration`:
`"PostconditionBase" in superclass.id` is a substring test on the `.id` of an
`ast.Name` node; reaching an `ast.Attribute` base raises `AttributeError`
before any later base is looked at. -/
def scan_bases : List BaseExpr → Except PyError Bool
  | [] => .ok false
  | .dotted v a :: _ =>
      .error (.attributeError (v ++ "." ++ a ++ " has no attribute id"))
  | .name id :: rest =>
      if str_contains "PostconditionBase".data id.data then .ok true else scan_bases rest

/-- `PostconditionParser.class_declaration`: walk the nodes and return the
first class definition one of whose bases passes the substring test; falls
off the end (Python returns `None`) when nothing matches. -/
def class_declaration : List PyNode → Except PyError (Option PyNode)
  | [] => .ok none
  | PyNode.classDef nm bases :: rest =>
      match scan_bases bases with
      | .error e => .error e
      | .ok true => .ok (some (PyNode.classDef nm bases))
      | .ok false => class_declaration rest
  | PyNode.other :: rest => class_declaration rest

/-- The relevant state of a constructed `PostconditionParser`: the walked
syntax-tree nodes and the recognized class declaration. -/
structure PostconditionParserModel where
  nodes : List PyNode
  decl : PyNode
  deriving DecidableEq

/-- `PostconditionParser.__init__`: evaluate `class_declaration` and raise
`ValueError("Cannot find Postcondition class")` when it is `None`. -/
def postcondition_parser_init (nodes : List PyNode) :
    Except PyError PostconditionParserModel :=
  match class_declaration nodes with
  | .error e => .error e
  | .ok none => .error (.valueError "Cannot find Postcondition class")
  | .ok (some n) => .ok ⟨nodes, n⟩

/-- The world the constructor could conceivably touch: the ambient filesystem
and a count of spawned subprocesses.  `PostconditionParser.__init__` contains
no filesystem or subprocess call — it only parses and walks the fragment's
syntax tree — so it threads the world through unchanged. -/
structure World where
  existing : List FsPath
  subprocesses_spawned : Nat
  deriving DecidableEq

/-- `PostconditionParser.__init__` together with the world it runs in. -/
def postcondition_parser_init_world (nodes : List PyNode) (w : World) :
    Except PyError PostconditionParserModel × World :=
  (postcondition_parser_init nodes, w)

/-- Whether a node is a class declaration the parser's criterion recognizes:
one of its bases is a plain name containing `"PostconditionBase"`. -/
def recognized (n : PyNode) : Bool :=
  match n with
  | PyNode.classDef _ bases =>
      bases.any (fun b =>
        match b with
        | BaseExpr.name id => str_contains "PostconditionBase".data id.data
        | BaseExpr.dotted _ _ => false)
  | PyNode.other => false

/-- Whether every base of every class declaration is a plain name. -/
def all_bases_plain (nodes : List PyNode) : Bool :=
  nodes.all (fun n =>
    match n with
    | PyNode.classDef _ bases =>
        bases.all (fun b => match b with | BaseExpr.name _ => true | _ => false)
    | PyNode.other => true)

/-- Whether a constructor outcome is the validation `ValueError`. -/
def is_validation_error (r : Except PyError PostconditionParserModel) : Bool :=
  match r with
  | .error (PyError.valueError _) => true
  | _ => false

theorem scan_bases_no_match (bases : List BaseExpr)
    (hmatch : bases.any (fun b =>
        match b with
        | BaseExpr.name id => str_contains "PostconditionBase".data id.data
        | BaseExpr.dotted _ _ => false) = false) :
    scan_bases bases = .ok false ∨ ∃ e, scan_bases bases = .error e := by
  induction bases with
  | nil => left; rfl
  | cons b bs ih =>
      cases b with
      | dotted v a => right; exact ⟨_, rfl⟩
      | name id =>
          simp only [List.any_cons, Bool.or_eq_false_iff] at hmatch
          rw [scan_bases, if_neg (by simp [hmatch.1])]
          exact ih hmatch.2

theorem scan_bases_plain (bases : List BaseExpr)
    (hmatch : bases.any (fun b =>
        match b with
        | BaseExpr.name id => str_contains "PostconditionBase".data id.data
        | BaseExpr.dotted _ _ => false) = false)
    (hplain : bases.all (fun b =>
        match b with | BaseExpr.name _ => true | _ => false) = true) :
    scan_bases bases = .ok false := by
  induction bases with
  | nil => rfl
  | cons b bs ih =>
      cases b with
      | dotted v a => simp at hplain
      | name id =>
          simp only [List.any_cons, Bool.or_eq_false_iff] at hmatch
          simp only [List.all_cons, Bool.and_eq_true] at hplain
          rw [scan_bases, if_neg (by simp [hmatch.1])]
          exact ih hmatch.2 hplain.2

theorem class_declaration_no_match (nodes : List PyNode)
    (h : nodes.all (fun n => !recognized n) = true) :
    class_declaration nodes = .ok none ∨ ∃ e, class_declaration nodes = .error e := by
  induction nodes with
  | nil => left; rfl
  | cons n rest ih =>
      simp only [List.all_cons, Bool.and_eq_true] at h
      cases n with
      | other => rw [class_declaration]; exact ih h.2
      | classDef nm bases =>
          have hmatch : bases.any (fun b =>
              match b with
              | BaseExpr.name id => str_contains "PostconditionBase".data id.data
              | BaseExpr.dotted _ _ => false) = false := by
            have := h.1
            simpa [recognized] using this
          rw [class_declaration]
          rcases scan_bases_no_match bases hmatch with hsb | ⟨e, hsb⟩
          · rw [hsb]; exact ih h.2
          · rw [hsb]; right; exact ⟨e, rfl⟩

theorem class_declaration_plain_none (nodes : List PyNode)
    (h : nodes.all (fun n => !recognized n) = true)
    (hplain : all_bases_plain nodes = true) :
    class_declaration nodes = .ok none := by
  induction nodes with
  | nil => rfl
  | cons n rest ih =>
      simp only [List.all_cons, Bool.and_eq_true] at h
      unfold all_bases_plain at hplain
      simp only [List.all_cons, Bool.and_eq_true] at hplain
      cases n with
      | other => rw [class_declaration]; exact ih h.2 hplain.2
      | classDef nm bases =>
          have hmatch : bases.any (fun b =>
              match b with
              | BaseExpr.name id => str_contains "PostconditionBase".data id.data
              | BaseExpr.dotted _ _ => false) = false := by
            have := h.1
            simpa [recognized] using this
          rw [class_declaration, scan_bases_plain bases hmatch hplain.1]
          exact ih h.2 hplain.2

/-- C7 counterexample: the fragment `class Postcondition(postconditions.Postcondition): …`
contains no declaration the parser recognizes (its only base is a dotted
expression, not a plain name), so it is in the claim's domain; construction
does fail — but with an `AttributeError` raised by evaluating
`superclass.id` on the `ast.Attribute` node, not with the validation
`ValueError` the claim promises. -/
theorem fragment_without_decl_error_class_counterexample :
    ([PyNode.classDef "Postcondition"
        [BaseExpr.dotted "postconditions" "Postcondition"]].all
      (fun n => !recognized n)) = true ∧
    postcondition_parser_init
        [PyNode.classDef "Postcondition" [BaseExpr.dotted "postconditions" "Postcondition"]] =
      .error (.attributeError "postconditions.Postcondition has no attribute id") ∧
    is_validation_error (postcondition_parser_init
        [PyNode.classDef "Postcondition" [BaseExpr.dotted "postconditions" "Postcondition"]]) =
      false :=
  ⟨rfl, rfl, rfl⟩

/-- C7 amended: for every fragment whose syntax tree contains no class
declaration the parser recognizes, construction fails before any side effect
— no filesystem asset is created and no subprocess is spawned (the world
passes through unchanged).  The failure is the validation
`ValueError("Cannot find Postcondition class")` whenever every class base is
a plain identifier; a fragment with a dotted/complex base expression that is
examined before a match can instead fail with an `AttributeError` from
`superclass.id`. -/
theorem fragment_without_decl_fails_no_side_effect
    (nodes : List PyNode) (w : World)
    (h : nodes.all (fun n => !recognized n) = true) :
    (∃ e, postcondition_parser_init nodes = .error e) ∧
    (all_bases_plain nodes = true →
      postcondition_parser_init nodes =
        .error (.valueError "Cannot find Postcondition class")) ∧
    (postcondition_parser_init_world nodes w).2 = w := by
  refine ⟨?_, ?_, rfl⟩
  · unfold postcondition_parser_init
    rcases class_declaration_no_match nodes h with hcd | ⟨e, hcd⟩
    · rw [hcd]; exact ⟨_, rfl⟩
    · rw [hcd]; exact ⟨e, rfl⟩
  · intro hplain
    unfold postcondition_parser_init
    rw [class_declaration_plain_none nodes h hplain]

/-- C7 amended witness: a fragment declaring only `class Foo(object)` (plus an
unrelated node) fails construction with the validation error, leaving the
world untouched. -/
theorem fragment_without_decl_fails_witness :
    ([PyNode.other, PyNode.classDef "Foo" [BaseExpr.name "object"]].all
      (fun n => !recognized n) = true) ∧
    (∃ e, postcondition_parser_init
        [PyNode.other, PyNode.classDef "Foo" [BaseExpr.name "object"]] = .error e) ∧
    (all_bases_plain [PyNode.other, PyNode.classDef "Foo" [BaseExpr.name "object"]] = true →
      postcondition_parser_init [PyNode.other, PyNode.classDef "Foo" [BaseExpr.name "object"]] =
        .error (.valueError "Cannot find Postcondition class")) ∧
    (postcondition_parser_init_world
        [PyNode.other, PyNode.classDef "Foo" [BaseExpr.name "object"]] ⟨[], 0⟩).2 =
      (⟨[], 0⟩ : World) := by
  have h : ([PyNode.other, PyNode.classDef "Foo" [BaseExpr.name "object"]].all
      (fun n => !recognized n) = true) := by decide
  have hmain := fragment_without_decl_fails_no_side_effect
    [PyNode.other, PyNode.classDef "Foo" [BaseExpr.name "object"]] ⟨[], 0⟩ h
  exact ⟨h, hmain.1, hmain.2.1, hmain.2.2⟩

/-- C9: recognition is substring containment, not exact name match: for any
superclass identifier that merely contains `"PostconditionBase"` — such as
`MyPostconditionBaseHelper` — a fragment declaring a class with that base is
accepted as the expected declaration and construction succeeds, returning
that class as the recognized declaration. -/
theorem substring_superclass_accepted (cname sup : String) (rest : List PyNode)
    (h : str_contains "PostconditionBase".data sup.data = true) :
    postcondition_parser_init (PyNode.classDef cname [BaseExpr.name sup] :: rest) =
      .ok ⟨PyNode.classDef cname [BaseExpr.name sup] :: rest,
           PyNode.classDef cname [BaseExpr.name sup]⟩ := by
  unfold postcondition_parser_init
  rw [class_declaration]
  rw [scan_bases, if_pos h]

/-- C9 witness: `class Postcondition(MyPostconditionBaseHelper)` is accepted,
although `MyPostconditionBaseHelper` is not the base class's exact name. -/
theorem substring_superclass_accepted_witness :
    str_contains "PostconditionBase".data "MyPostconditionBaseHelper".data = true ∧
    postcondition_parser_init
        [PyNode.classDef "Postcondition" [BaseExpr.name "MyPostconditionBaseHelper"]] =
      .ok ⟨[PyNode.classDef "Postcondition" [BaseExpr.name "MyPostconditionBaseHelper"]],
           PyNode.classDef "Postcondition" [BaseExpr.name "MyPostconditionBaseHelper"]⟩ := by
  have h : str_contains "PostconditionBase".data "MyPostconditionBaseHelper".data = true := by
    decide
  exact ⟨h, substring_superclass_accepted "Postcondition" "MyPostconditionBaseHelper" [] h⟩
